import Mathlib

/-!
Shallow embedding of the housecat ClickHouse query relay
(src/src-tauri/src/lib.rs) and verification of its specification.

The Rust code builds SQL text from structured inputs, validates the
connection descriptor before any network interaction, and normalizes the
server's JSON reply.  Machine strings are modelled as Lean `String`
manipulated through their underlying `List Char` (so that every
definition evaluates inside the kernel); `u16`/`u32`/`u64` become `Nat`;
fallible operations return `Except String α` exactly where the Rust
returns `Result<_, String>`.  The HTTP transport itself is external: a
command is split into its pure request phase (validation + query
building, producing the `Request` that would be POSTed) and its pure
normalization phase (a function of the server's decoded response), with
the decoded response supplied as an explicit argument.
-/

namespace Housecat

/-! ## Character and string primitives (kernel-computable) -/

/-- The backtick character, written via its code point. -/
def backtick : Char := Char.ofNat 96

/-- The single-quote character, written via its code point. -/
def squote : Char := Char.ofNat 39

/-- Whitespace test used by `str::trim` (ASCII subset; the inputs the
claims quantify over are ASCII). -/
def isWsChar (c : Char) : Bool := c == ' ' || c == '\t' || c == '\n' || c == '\r'

/-- Drop leading and trailing whitespace, as Rust `str::trim`. -/
def trimChars (l : List Char) : List Char :=
  ((l.dropWhile isWsChar).reverse.dropWhile isWsChar).reverse

/-- Rust `str::trim` on `String`. -/
def strTrim (s : String) : String := ⟨trimChars s.data⟩

/-- Rust `str::is_empty` (checked on the character list). -/
def strIsEmpty (s : String) : Bool := s.data.isEmpty

/-- Rust `str::to_uppercase` (ASCII behaviour, as used by the code). -/
def strToUpper (s : String) : String := ⟨s.data.map Char.toUpper⟩

/-- Rust `str::starts_with` on strings. -/
def startsWithStr (s pat : String) : Bool := pat.data.isPrefixOf s.data

/-- Substring search: does the haystack contain the pattern as a
contiguous infix?  Mirrors Rust `str::contains` with a string pattern. -/
def containsSubAux (pat : List Char) : List Char → Bool
  | [] => pat.isEmpty
  | c :: rest => pat.isPrefixOf (c :: rest) || containsSubAux pat rest

/-- Rust `str::contains` on strings. -/
def containsSub (s pat : String) : Bool := containsSubAux pat.data s.data

/-- Rust `str::ends_with` on strings. -/
def endsWithStr (s pat : String) : Bool := pat.data.reverse.isPrefixOf s.data.reverse

/-- Rust `str::trim_end_matches` with a character pattern: remove every
trailing occurrence. -/
def dropTrailingChars (c0 : Char) (l : List Char) : List Char :=
  (l.reverse.dropWhile (· == c0)).reverse

/-- Rust `u32::clamp(lo, hi)`, written exactly as its reference
implementation (for `lo ≤ hi`). -/
def clampNat (x lo hi : Nat) : Nat :=
  if x < lo then lo else if x > hi then hi else x

/-- Rust `str::replace(c0, [c0, c0])`: double every occurrence of the
character `c0`, leaving all other characters unchanged. -/
def doubleChar (c0 : Char) : List Char → List Char
  | [] => []
  | c :: rest => if c == c0 then c0 :: c0 :: doubleChar c0 rest else c :: doubleChar c0 rest

/-! ## Data model (from src/src-tauri/src/lib.rs) -/

/-- Dynamic JSON values (`serde_json::Value`): row cells are opaque
structured values. -/
inductive JsonValue where
  | null
  | bool (b : Bool)
  | num (n : Int)
  | str (s : String)
  | arr (elems : List JsonValue)
  | obj (fields : List (String × JsonValue))

/-- `ClickHouseConnectionInput`: one endpoint plus credentials. -/
structure ClickHouseConnectionInput where
  host : String
  port : Nat
  username : String
  password : String
  database : Option String
  secure : Bool
deriving DecidableEq

/-- `ClickHouseTableRow`: one raw row of the schema-listing reply. -/
structure ClickHouseTableRow where
  database : String
  name : String
  total_rows : Option Nat
deriving DecidableEq

/-- `ClickHouseMetaColumn`: one column descriptor of a `FORMAT JSON` reply. -/
structure ClickHouseMetaColumn where
  name : String
deriving DecidableEq

/-- `ClickHousePreviewResult`: the structured `{meta, data}` reply shape. -/
structure ClickHousePreviewResult where
  meta : List ClickHouseMetaColumn
  data : List JsonValue

/-- `TablePreviewInput`: arguments of the table-preview command. -/
structure TablePreviewInput where
  connection : ClickHouseConnectionInput
  schema : String
  table : String
  limit : Option Nat
  sort_column : Option String
  sort_direction : Option String

/-- `QueryInput`: arguments of the run-query command. -/
structure QueryInput where
  connection : ClickHouseConnectionInput
  query : String
  limit : Option Nat

/-- `ClickHouseStatusRow`: one row of the status-probe reply. -/
structure ClickHouseStatusRow where
  version : String
  current_database : String
deriving DecidableEq

/-- `SchemaTableEntry`: one table of a schema, with its optional row count. -/
structure SchemaTableEntry where
  name : String
  row_count : Option Nat
deriving DecidableEq

/-- `SchemaTables`: one schema with its ordered sequence of tables. -/
structure SchemaTables where
  schema : String
  tables : List SchemaTableEntry
deriving DecidableEq

/-- `TablePreview`: normalized tabular result. -/
structure TablePreview where
  columns : List String
  rows : List JsonValue

/-- `ConnectionStatus` without its wall-clock latency field (real time is
outside the embedding; the remaining fields are the ones the claims
speak about). -/
structure ConnectionStatus where
  connected : Bool
  version : String
  current_database : String
deriving DecidableEq

/-- The HTTP POST a command would issue: endpoint URL, trimmed username,
raw password, and the SQL text as the body. -/
structure Request where
  endpoint : String
  username : String
  password : String
  body : String
deriving DecidableEq

/-! ## Identifier escaping (lib.rs lines 102-104) -/

/-- `escape_identifier`: double every literal backtick. -/
def escape_identifier (identifier : String) : String :=
  ⟨doubleChar backtick identifier.data⟩

/-- Single-quote escaping used for the database name inside a SQL string
literal (lib.rs line 154). -/
def escapeSingleQuotes (s : String) : String :=
  ⟨doubleChar squote s.data⟩

/-! ## Transport request phase (lib.rs lines 106-146, `run_clickhouse_query`)

Validation and request construction; the actual send, the 10-second
timeout and the HTTP-status classification act on the network and stay
outside the embedding.  A command reaches the network exactly when this
phase returns `.ok`. -/

/-- Validation and request construction of `run_clickhouse_query`. -/
def run_clickhouse_query_request (input : ClickHouseConnectionInput)
    (query : String) : Except String Request :=
  let host := strTrim input.host
  if strIsEmpty host then .error "Host is required"
  else if strIsEmpty (strTrim input.username) then .error "Username is required"
  else
    let scheme := if input.secure then "https" else "http"
    .ok ⟨scheme ++ "://" ++ host ++ ":" ++ toString input.port ++ "/",
         strTrim input.username, input.password, query⟩

/-! ## Schema listing (lib.rs lines 148-187, `fetch_schema_tables`) -/

/-- The no-database schema query (lib.rs line 159). -/
def schemaQueryDefault : String :=
  "SELECT database, name, total_rows FROM system.tables WHERE database NOT IN ('INFORMATION_SCHEMA', 'information_schema', 'system') ORDER BY database, name FORMAT JSON"

/-- SQL built by `fetch_schema_tables` (lib.rs lines 152-160). -/
def fetch_schema_tables_query (input : ClickHouseConnectionInput) : String :=
  match input.database with
  | some database =>
    if strIsEmpty (strTrim database) then schemaQueryDefault
    else
      "SELECT database, name, total_rows FROM system.tables WHERE database = '"
        ++ escapeSingleQuotes (strTrim database) ++ "' ORDER BY name FORMAT JSON"
  | none => schemaQueryDefault

/-- Request phase of `fetch_schema_tables`. -/
def fetch_schema_tables_request (input : ClickHouseConnectionInput) :
    Except String Request :=
  run_clickhouse_query_request input (fetch_schema_tables_query input)

/-! ### Grouping of the raw rows (lib.rs lines 169-186)

The Rust code inserts every row into a `BTreeMap<String, Vec<_>>` keyed
by database name, appending to the end of the key's vector, then emits
the map in ascending key order.  The map is modelled as a key-sorted
association list; `strLt` is byte-lexicographic order on strings (UTF-8
byte order and code-point order agree). -/

/-- Boolean lexicographic order on character lists by code point. -/
def ltChars : List Char → List Char → Bool
  | [], [] => false
  | [], _ :: _ => true
  | _ :: _, [] => false
  | a :: as, b :: bs =>
    if a.toNat < b.toNat then true
    else if b.toNat < a.toNat then false
    else ltChars as bs

/-- The `Ord` used by `BTreeMap<String, _>`. -/
def strLt (a b : String) : Bool := ltChars a.data b.data

/-- One `entry(key).or_default().push(value)` step on the sorted
association list. -/
def btreeAdd (m : List (String × List SchemaTableEntry)) (k : String)
    (v : SchemaTableEntry) : List (String × List SchemaTableEntry) :=
  match m with
  | [] => [(k, [v])]
  | (k', vs) :: rest =>
    if strLt k k' then (k, [v]) :: (k', vs) :: rest
    else if k == k' then (k', vs ++ [v]) :: rest
    else (k', vs) :: btreeAdd rest k v

/-- Insert one raw row into the grouping map. -/
def insertRowStep (m : List (String × List SchemaTableEntry))
    (row : ClickHouseTableRow) : List (String × List SchemaTableEntry) :=
  btreeAdd m row.database ⟨row.name, row.total_rows⟩

/-- The grouping map after all raw rows (lib.rs lines 169-179). -/
def groupMap (rows : List ClickHouseTableRow) :
    List (String × List SchemaTableEntry) :=
  rows.foldl insertRowStep []

/-- Normalized output of `fetch_schema_tables` as a function of the raw
rows (lib.rs lines 169-186). -/
def groupRows (rows : List ClickHouseTableRow) : List SchemaTables :=
  (groupMap rows).map (fun p => ⟨p.1, p.2⟩)

/-- First-match lookup of a schema's tables in the normalized output. -/
def tablesFor (out : List SchemaTables) (d : String) : List SchemaTableEntry :=
  match out with
  | [] => []
  | s :: rest => if d == s.schema then s.tables else tablesFor rest d

/-- Pipeline of `fetch_schema_tables`: request phase, then grouping of
the decoded rows (the decode outcome of the 2xx body is the `rows`
argument). -/
def fetch_schema_tables_pipeline (input : ClickHouseConnectionInput)
    (rows : Except String (List ClickHouseTableRow)) :
    Except String (List SchemaTables) :=
  match fetch_schema_tables_request input with
  | .error e => .error e
  | .ok _ =>
    match rows with
    | .error e => .error ("Could not parse ClickHouse response: " ++ e)
    | .ok rs => .ok (groupRows rs)

/-! ## Table preview (lib.rs lines 189-243, `fetch_table_preview`) -/

/-- Direction keyword (lib.rs lines 204-207): only the exact strings
"desc" and "DESC" select descending. -/
def sortDirectionStr (sortDirection : Option String) : String :=
  match sortDirection with
  | some s => if s == "desc" || s == "DESC" then "DESC" else "ASC"
  | none => "ASC"

/-- ORDER BY clause (lib.rs lines 202-216): present exactly when a
non-blank sort column is given. -/
def orderClause (sortColumn : Option String) (sortDirection : Option String) : String :=
  match sortColumn with
  | some column =>
    if strIsEmpty (strTrim column) then ""
    else " ORDER BY `" ++ escape_identifier (strTrim column) ++ "` "
      ++ sortDirectionStr sortDirection
  | none => ""

/-- SQL built by `fetch_table_preview` (lib.rs lines 191-224), after its
schema/table validation. -/
def fetch_table_preview_query (input : TablePreviewInput) : Except String String :=
  let schema := strTrim input.schema
  if strIsEmpty schema then .error "Schema is required"
  else
    let table := strTrim input.table
    if strIsEmpty table then .error "Table is required"
    else
      let limit := clampNat (input.limit.getD 200) 1 1000
      .ok ("SELECT * FROM `" ++ escape_identifier schema ++ "`.`"
        ++ escape_identifier table ++ "`"
        ++ orderClause input.sort_column input.sort_direction
        ++ " LIMIT " ++ toString limit ++ " FORMAT JSON")

/-- Request phase of `fetch_table_preview`. -/
def fetch_table_preview_request (input : TablePreviewInput) :
    Except String Request :=
  match fetch_table_preview_query input with
  | .error e => .error e
  | .ok q => run_clickhouse_query_request input.connection q

/-- Strict `{meta, data}` normalization (lib.rs lines 233-242 and 271-281). -/
def preview_normalize (pr : ClickHousePreviewResult) : TablePreview :=
  ⟨pr.meta.map (fun col => col.name), pr.data⟩

/-- Pipeline of `fetch_table_preview`: request phase, then strict
decoding of the 2xx body (decode outcome supplied as `parsed`). -/
def fetch_table_preview_pipeline (input : TablePreviewInput)
    (parsed : Except String ClickHousePreviewResult) : Except String TablePreview :=
  match fetch_table_preview_request input with
  | .error e => .error e
  | .ok _ =>
    match parsed with
    | .error e => .error ("Could not parse ClickHouse response: " ++ e)
    | .ok pr => .ok (preview_normalize pr)

/-! ## Arbitrary query (lib.rs lines 245-293, `run_query`) -/

/-- Trim, strip trailing semicolons, trim again (lib.rs line 247). -/
def normalizeQuery (q : String) : String :=
  strTrim ⟨dropTrailingChars ';' (strTrim q).data⟩

/-- SQL built by `run_query` (lib.rs lines 247-262): validation, then the
textual LIMIT / FORMAT heuristics on an uppercased copy. -/
def run_query_build (q : String) (limit : Option Nat) : Except String String :=
  let raw := normalizeQuery q
  if strIsEmpty raw then .error "Query is required"
  else
    let upper := strToUpper raw
    let lim := clampNat (limit.getD 500) 1 10000
    let query1 :=
      if startsWithStr upper "SELECT " && !containsSub upper " LIMIT "
      then raw ++ " LIMIT " ++ toString lim
      else raw
    .ok (if containsSub upper "FORMAT " then query1 else query1 ++ " FORMAT JSON")

/-- Request phase of `run_query`. -/
def run_query_request (input : QueryInput) : Except String Request :=
  match run_query_build input.query input.limit with
  | .error e => .error e
  | .ok q => run_clickhouse_query_request input.connection q

/-- Synthetic single-cell result for non-tabular 2xx bodies
(lib.rs lines 283-292). -/
def run_query_fallback (body : String) : TablePreview :=
  ⟨["result"],
   [JsonValue.obj [("result", JsonValue.str
      (if strIsEmpty (strTrim body) then "Query executed successfully"
       else strTrim body))]]⟩

/-- Best-effort normalization of `run_query` (lib.rs lines 266-292):
`parsed` is the outcome of `serde_json::from_str` on the body. -/
def run_query_normalize (parsed : Option ClickHousePreviewResult)
    (body : String) : TablePreview :=
  match parsed with
  | some pr => preview_normalize pr
  | none => run_query_fallback body

/-- Pipeline of `run_query`: request phase, then best-effort decoding of
the 2xx body. -/
def run_query_pipeline (input : QueryInput)
    (parsed : Option ClickHousePreviewResult) (body : String) :
    Except String TablePreview :=
  match run_query_request input with
  | .error e => .error e
  | .ok _ => .ok (run_query_normalize parsed body)

/-! ## Status probe (lib.rs lines 295-324, `fetch_connection_status`) -/

/-- The fixed probe statement (lib.rs line 302). -/
def statusQuery : String :=
  "SELECT version() AS version, currentDatabase() AS current_database FORMAT JSON"

/-- Request phase of `fetch_connection_status`. -/
def fetch_connection_status_request (input : ClickHouseConnectionInput) :
    Except String Request :=
  run_clickhouse_query_request input statusQuery

/-- Normalization of the decoded status rows (lib.rs lines 312-323). -/
def fetch_connection_status_normalize (rows : List ClickHouseStatusRow) :
    Except String ConnectionStatus :=
  match rows with
  | [] => .error "Could not read ClickHouse status"
  | row :: _ => .ok ⟨true, row.version, row.current_database⟩

/-- Pipeline of `fetch_connection_status`: request phase, then
normalization of the decoded rows. -/
def fetch_connection_status_pipeline (input : ClickHouseConnectionInput)
    (rows : List ClickHouseStatusRow) : Except String ConnectionStatus :=
  match fetch_connection_status_request input with
  | .error e => .error e
  | .ok _ => fetch_connection_status_normalize rows

/-! ## Auxiliary predicates used to state the claims -/

/-- Scans a character list and reports whether every backtick is part of
an adjacent doubled pair; a lone backtick (one that could terminate a
backtick-quoted identifier early) makes it false. -/
def noLoneBacktick : List Char → Bool
  | [] => true
  | [c] => !(c == backtick)
  | c :: c2 :: rest =>
    if c == backtick then (c2 == backtick) && noLoneBacktick rest
    else noLoneBacktick (c2 :: rest)

/-- First-match lookup in the grouping association list. -/
def lookupKey (m : List (String × List SchemaTableEntry)) (j : String) :
    List SchemaTableEntry :=
  match m with
  | [] => []
  | (k', vs) :: rest => if j == k' then vs else lookupKey rest j

/-- Strict key order on grouping entries. -/
def keyLt (p q : String × List SchemaTableEntry) : Prop :=
  strLt p.1 q.1 = true

/-- Nondecreasing lexicographic order of a list of strings. -/
def sortedLeNames : List String → Bool
  | [] => true
  | [_] => true
  | a :: b :: rest => !(strLt b a) && sortedLeNames (b :: rest)

/-- Does every schema of the output list its tables in nondecreasing
lexicographic name order? -/
def tablesSortedByNameLe (out : List SchemaTables) : Bool :=
  out.all (fun s => sortedLeNames (s.tables.map (fun t => t.name)))

/-! ## Helper lemmas -/

theorem char_toNat_inj {a b : Char} (h : a.toNat = b.toNat) : a = b := by
  apply Char.ext
  cases ha : a.val with
  | mk x =>
    cases hb : b.val with
    | mk y =>
      have hx : x.toNat = y.toNat := by simp_all [Char.toNat, UInt32.toNat, ha, hb]
      have hxy : x = y := BitVec.eq_of_toNat_eq hx
      simp [hxy]

theorem doubleChar_countP (c0 : Char) (l : List Char) :
    (doubleChar c0 l).countP (fun c => c == c0) = 2 * l.countP (fun c => c == c0) := by
  induction l with
  | nil => rfl
  | cons c rest ih =>
    by_cases h : c = c0
    · subst h
      simp only [doubleChar, beq_self_eq_true, if_true, List.countP_cons, ih]
      ring
    · have hb : (c == c0) = false := by simp [h]
      simp only [doubleChar, hb, Bool.false_eq_true, if_false, List.countP_cons, ih]
      simp

theorem doubleChar_filter_ne (c0 : Char) (l : List Char) :
    (doubleChar c0 l).filter (fun c => !(c == c0)) = l.filter (fun c => !(c == c0)) := by
  induction l with
  | nil => rfl
  | cons c rest ih =>
    by_cases h : c = c0
    · subst h
      simp [doubleChar, ih]
    · have hb : (c == c0) = false := by simp [h]
      simp [doubleChar, hb, List.filter_cons, ih]

theorem noLoneBacktick_doubleChar (l : List Char) :
    noLoneBacktick (doubleChar backtick l) = true := by
  induction l with
  | nil => rfl
  | cons c rest ih =>
    by_cases h : c = backtick
    · subst h
      simp [doubleChar, noLoneBacktick, ih]
    · have hb : (c == backtick) = false := by simp [h]
      simp only [doubleChar, hb, Bool.false_eq_true, if_false]
      cases hr : doubleChar backtick rest with
      | nil => simp [noLoneBacktick, hb]
      | cons d ds =>
        have ih' : noLoneBacktick (d :: ds) = true := hr ▸ ih
        simp [noLoneBacktick, hb, ih']

theorem ltChars_irrefl (a : List Char) : ltChars a a = false := by
  induction a with
  | nil => rfl
  | cons c rest ih => simp [ltChars, ih]

theorem ne_of_ltChars {a b : List Char} (h : ltChars a b = true) : a ≠ b := by
  intro he
  subst he
  rw [ltChars_irrefl] at h
  exact absurd h (by simp)

theorem ltChars_trans {a : List Char} :
    ∀ {b c : List Char}, ltChars a b = true → ltChars b c = true → ltChars a c = true := by
  induction a with
  | nil =>
    intro b c h1 h2
    cases c with
    | nil =>
      cases b with
      | nil => exact absurd h1 (by simp [ltChars])
      | cons y ys => exact absurd h2 (by simp [ltChars])
    | cons z zs => simp [ltChars]
  | cons x xs ih =>
    intro b c h1 h2
    cases b with
    | nil => exact absurd h1 (by simp [ltChars])
    | cons y ys =>
      cases c with
      | nil => exact absurd h2 (by simp [ltChars])
      | cons z zs =>
        by_cases hxy : x.toNat < y.toNat
        · by_cases hyz : y.toNat < z.toNat
          · have : x.toNat < z.toNat := Nat.lt_trans hxy hyz
            simp [ltChars, this]
          · by_cases hzy : z.toNat < y.toNat
            · rw [ltChars] at h2
              simp [hyz, hzy] at h2
            · have hy : y.toNat = z.toNat := Nat.le_antisymm (Nat.le_of_not_lt hzy) (Nat.le_of_not_lt hyz)
              have : x.toNat < z.toNat := hy ▸ hxy
              simp [ltChars, this]
        · by_cases hyx : y.toNat < x.toNat
          · rw [ltChars] at h1
            simp [hxy, hyx] at h1
          · have hx : x.toNat = y.toNat := Nat.le_antisymm (Nat.le_of_not_lt hyx) (Nat.le_of_not_lt hxy)
            have h1' : ltChars xs ys = true := by
              rw [ltChars] at h1
              simpa [hxy, hyx] using h1
            by_cases hyz : y.toNat < z.toNat
            · have : x.toNat < z.toNat := hx ▸ hyz
              simp [ltChars, this]
            · by_cases hzy : z.toNat < y.toNat
              · rw [ltChars] at h2
                simp [hyz, hzy] at h2
              · have hy : y.toNat = z.toNat := Nat.le_antisymm (Nat.le_of_not_lt hzy) (Nat.le_of_not_lt hyz)
                have h2' : ltChars ys zs = true := by
                  rw [ltChars] at h2
                  simpa [hyz, hzy] using h2
                have hxz : x.toNat = z.toNat := hx.trans hy
                have hnlt : ¬ x.toNat < z.toNat := by omega
                have hnlt' : ¬ z.toNat < x.toNat := by omega
                simp [ltChars, hnlt, hnlt', ih h1' h2']

theorem ltChars_total_of_ne {a : List Char} :
    ∀ {b : List Char}, a ≠ b → ltChars a b = false → ltChars b a = true := by
  induction a with
  | nil =>
    intro b hne h
    cases b with
    | nil => exact absurd rfl hne
    | cons y ys => exact absurd h (by simp [ltChars])
  | cons x xs ih =>
    intro b hne h
    cases b with
    | nil => simp [ltChars]
    | cons y ys =>
      by_cases hxy : x.toNat < y.toNat
      · rw [ltChars] at h
        simp [hxy] at h
      · by_cases hyx : y.toNat < x.toNat
        · simp [ltChars, hyx]
        · have hx : x.toNat = y.toNat := Nat.le_antisymm (Nat.le_of_not_lt hyx) (Nat.le_of_not_lt hxy)
          have hxy' : x = y := char_toNat_inj hx
          subst hxy'
          have hne' : xs ≠ ys := by
            intro he
            exact hne (by rw [he])
          have h' : ltChars xs ys = false := by
            rw [ltChars] at h
            simpa [hxy, hyx] using h
          have hnlt : ¬ x.toNat < x.toNat := by omega
          simp [ltChars, hnlt, ih hne' h']

theorem strLt_trans {a b c : String} (h1 : strLt a b = true) (h2 : strLt b c = true) :
    strLt a c = true :=
  ltChars_trans h1 h2

theorem strLt_ne {a b : String} (h : strLt a b = true) : a ≠ b := by
  intro he
  subst he
  rw [strLt, ltChars_irrefl] at h
  exact absurd h (by simp)

theorem strLt_total_of_ne {a b : String} (hne : a ≠ b) (h : strLt a b = false) :
    strLt b a = true := by
  apply ltChars_total_of_ne _ h
  intro hd
  apply hne
  cases a
  cases b
  simp_all

theorem btreeAdd_key_mem {k : String} {v : SchemaTableEntry} :
    ∀ {m : List (String × List SchemaTableEntry)}, ∀ p ∈ btreeAdd m k v,
      p.1 = k ∨ ∃ q ∈ m, p.1 = q.1 := by
  intro m
  induction m with
  | nil =>
    intro p hp
    simp [btreeAdd] at hp
    left
    rw [hp]
  | cons hd tl ih =>
    intro p hp
    obtain ⟨k', vs⟩ := hd
    rw [btreeAdd] at hp
    by_cases hlt : strLt k k' = true
    · simp only [hlt, if_true] at hp
      rcases List.mem_cons.mp hp with rfl | hp'
      · left; rfl
      · rcases List.mem_cons.mp hp' with rfl | hp''
        · right; exact ⟨(k', vs), by simp⟩
        · right; exact ⟨p, by simp [hp''], rfl⟩
    · by_cases heq : (k == k') = true
      · simp only [hlt, Bool.false_eq_true, if_false, heq, if_true] at hp
        rcases List.mem_cons.mp hp with rfl | hp'
        · right; exact ⟨(k', vs), by simp⟩
        · right; exact ⟨p, by simp [hp'], rfl⟩
      · simp only [hlt, Bool.false_eq_true, if_false, heq] at hp
        rcases List.mem_cons.mp hp with rfl | hp'
        · right; exact ⟨(k', vs), by simp⟩
        · rcases ih p hp' with h | ⟨q, hq, hpq⟩
          · left; exact h
          · right; exact ⟨q, by simp [hq], hpq⟩

theorem btreeAdd_pairwise {k : String} {v : SchemaTableEntry} :
    ∀ {m : List (String × List SchemaTableEntry)}, List.Pairwise keyLt m →
      List.Pairwise keyLt (btreeAdd m k v) := by
  intro m
  induction m with
  | nil =>
    intro _
    simp [btreeAdd]
  | cons hd tl ih =>
    intro hm
    obtain ⟨k', vs⟩ := hd
    obtain ⟨h1, h2⟩ := List.pairwise_cons.mp hm
    rw [btreeAdd]
    by_cases hlt : strLt k k' = true
    · simp only [hlt, if_true]
      refine List.pairwise_cons.mpr ⟨?_, hm⟩
      intro p hp
      rcases List.mem_cons.mp hp with rfl | hp'
      · exact hlt
      · exact strLt_trans hlt (h1 p hp')
    · by_cases heq : (k == k') = true
      · simp only [hlt, Bool.false_eq_true, if_false, heq, if_true]
        exact List.pairwise_cons.mpr ⟨h1, h2⟩
      · simp only [hlt, Bool.false_eq_true, if_false, heq]
        refine List.pairwise_cons.mpr ⟨?_, ih h2⟩
        intro p hp
        rcases btreeAdd_key_mem p hp with hk | ⟨q, hq, hpq⟩
        · have hne : k ≠ k' := by
            intro he
            rw [he] at heq
            simp at heq
          have : strLt k' k = true :=
            strLt_total_of_ne hne (by simpa using hlt)
          rw [keyLt, hk]
          exact this
        · rw [keyLt, hpq]
          exact h1 q hq

theorem lookupKey_eq_nil_of_forall_ne
    {m : List (String × List SchemaTableEntry)} {j : String}
    (h : ∀ p ∈ m, j ≠ p.1) : lookupKey m j = [] := by
  induction m with
  | nil => rfl
  | cons hd tl ih =>
    obtain ⟨k', vs⟩ := hd
    have hne : j ≠ k' := h (k', vs) (by simp)
    have hb : (j == k') = false := by simp [hne]
    rw [lookupKey]
    simp only [hb, Bool.false_eq_true, if_false]
    exact ih (fun p hp => h p (by simp [hp]))

theorem lookupKey_btreeAdd {k : String} {v : SchemaTableEntry} {j : String} :
    ∀ {m : List (String × List SchemaTableEntry)}, List.Pairwise keyLt m →
      lookupKey (btreeAdd m k v) j
        = lookupKey m j ++ (if j == k then [v] else []) := by
  intro m
  induction m with
  | nil =>
    intro _
    by_cases hj : (j == k) = true
    · simp [btreeAdd, lookupKey, hj]
    · simp [btreeAdd, lookupKey, hj]
  | cons hd tl ih =>
    intro hm
    obtain ⟨k', vs⟩ := hd
    obtain ⟨h1, h2⟩ := List.pairwise_cons.mp hm
    rw [btreeAdd]
    by_cases hlt : strLt k k' = true
    · simp only [hlt, if_true]
      by_cases hj : (j == k) = true
      · have hjk : j = k := beq_iff_eq.mp hj
        have hnil : lookupKey ((k', vs) :: tl) j = [] := by
          apply lookupKey_eq_nil_of_forall_ne
          intro p hp
          rcases List.mem_cons.mp hp with rfl | hp'
          · rw [hjk]; exact strLt_ne hlt
          · rw [hjk]; exact strLt_ne (strLt_trans hlt (h1 p hp'))
        rw [hnil]
        simp [lookupKey, hj]
      · simp only [hj, Bool.false_eq_true, if_false, List.append_nil]
        rw [lookupKey]
        simp only [hj, Bool.false_eq_true, if_false]
    · by_cases heq : (k == k') = true
      · have hkk : k = k' := beq_iff_eq.mp heq
        subst hkk
        simp only [hlt, Bool.false_eq_true, if_false, heq, if_true]
        by_cases hj : (j == k) = true
        · rw [lookupKey, lookupKey]
          simp [hj]
        · rw [lookupKey, lookupKey]
          simp [hj]
      · simp only [hlt, Bool.false_eq_true, if_false, heq]
        by_cases hj : (j == k') = true
        · have hjk' : j = k' := beq_iff_eq.mp hj
          have hjk : (j == k) = false := by
            have hne : k ≠ k' := by
              intro he
              rw [he] at heq
              simp at heq
            have : j ≠ k := by
              rw [hjk']
              exact fun he => hne he.symm
            simp [this]
          rw [lookupKey, lookupKey]
          simp [hj, hjk]
        · rw [lookupKey, lookupKey]
          simp only [hj, Bool.false_eq_true, if_false]
          exact ih h2

theorem pairwise_foldl_insertRowStep (rows : List ClickHouseTableRow) :
    ∀ m, List.Pairwise keyLt m →
      List.Pairwise keyLt (List.foldl insertRowStep m rows) := by
  induction rows with
  | nil => intro m hm; simpa using hm
  | cons r rs ih =>
    intro m hm
    rw [List.foldl_cons]
    exact ih _ (btreeAdd_pairwise hm)

theorem pairwise_groupMap (rows : List ClickHouseTableRow) :
    List.Pairwise keyLt (groupMap rows) :=
  pairwise_foldl_insertRowStep rows [] (by simp)

theorem lookupKey_foldl (d : String) (rows : List ClickHouseTableRow) :
    ∀ m, List.Pairwise keyLt m →
      lookupKey (List.foldl insertRowStep m rows) d
        = lookupKey m d
            ++ (rows.filter (fun r => r.database == d)).map
                (fun r => SchemaTableEntry.mk r.name r.total_rows) := by
  induction rows with
  | nil => intro m hm; simp
  | cons r rs ih =>
    intro m hm
    have hm' : List.Pairwise keyLt (insertRowStep m r) := btreeAdd_pairwise hm
    rw [List.foldl_cons, ih (insertRowStep m r) hm']
    rw [show insertRowStep m r = btreeAdd m r.database ⟨r.name, r.total_rows⟩ from rfl]
    rw [lookupKey_btreeAdd hm]
    by_cases hd : (d == r.database) = true
    · have hd' : (r.database == d) = true := by
        rw [beq_iff_eq] at hd ⊢
        exact hd.symm
      simp [List.filter_cons, hd, hd', List.append_assoc]
    · have hdf : (d == r.database) = false := by simpa using hd
      have hd' : (r.database == d) = false := by
        rw [beq_eq_false_iff_ne] at hdf ⊢
        exact fun he => hdf he.symm
      simp [List.filter_cons, hdf, hd']

theorem tablesFor_map_mk (d : String) :
    ∀ m : List (String × List SchemaTableEntry),
      tablesFor (m.map (fun p => SchemaTables.mk p.1 p.2)) d = lookupKey m d := by
  intro m
  induction m with
  | nil => rfl
  | cons hd tl ih =>
    obtain ⟨k', vs⟩ := hd
    rw [List.map_cons, tablesFor, lookupKey]
    by_cases hj : (d == k') = true
    · simp [hj]
    · simp only [hj, Bool.false_eq_true, if_false]
      exact ih

theorem endsWithStr_append (a b p : String) (h : endsWithStr b p = true) :
    endsWithStr (a ++ b) p = true := by
  rw [endsWithStr] at h ⊢
  rw [List.isPrefixOf_iff_prefix] at h ⊢
  rw [String.data_append, List.reverse_append]
  exact h.trans (List.prefix_append _ _)

/-! ## Claim theorems -/

/-- C5: for every identifier string, escape_identifier doubles every
literal backtick (the result carries 2n backticks when the input carries
n), leaves all other characters unchanged (the non-backtick characters
of the result are exactly those of the input, in order), and the result
contains no single unescaped backtick that could terminate a
backtick-quoted identifier early. -/
theorem C5_escape_identifier_doubles_backticks (s : String) :
    (escape_identifier s).data.countP (fun c => c == backtick)
        = 2 * s.data.countP (fun c => c == backtick)
    ∧ (escape_identifier s).data.filter (fun c => !(c == backtick))
        = s.data.filter (fun c => !(c == backtick))
    ∧ noLoneBacktick (escape_identifier s).data = true :=
  ⟨doubleChar_countP backtick s.data, doubleChar_filter_ne backtick s.data,
   noLoneBacktick_doubleChar s.data⟩

/-- C8: a status probe whose successful response decodes to zero data
rows fails with the protocol-invariant error "Could not read ClickHouse
status"; with at least one row it returns connected = true carrying the
version and current database of the first row. -/
theorem C8_status_probe_zero_rows :
    fetch_connection_status_normalize [] = .error "Could not read ClickHouse status"
    ∧ (∀ (r : ClickHouseStatusRow) (rest : List ClickHouseStatusRow),
        fetch_connection_status_normalize (r :: rest)
          = .ok ⟨true, r.version, r.current_database⟩)
    ∧ (∀ (input : ClickHouseConnectionInput) (req : Request),
        fetch_connection_status_request input = .ok req →
          fetch_connection_status_pipeline input []
            = .error "Could not read ClickHouse status") := by
  refine ⟨rfl, fun r rest => rfl, ?_⟩
  intro input req hreq
  rw [fetch_connection_status_pipeline, hreq]
  rfl

/-- C8 witness: a concrete probe whose request phase succeeds but whose
response carries zero rows fails with the protocol-invariant error. -/
theorem C8_status_probe_zero_rows_witness :
    fetch_connection_status_pipeline ⟨"localhost", 8123, "u", "p", none, false⟩ []
      = .error "Could not read ClickHouse status" := by
  exact C8_status_probe_zero_rows.2.2 ⟨"localhost", 8123, "u", "p", none, false⟩
    ⟨"http://localhost:8123/", "u", "p", statusQuery⟩ rfl

/-- C9 counterexample: the normalized schema-listing output is NOT
always sorted by table name within a schema.  When the server returns
the rows of one schema out of name order, the grouped output preserves
the server's row order: the claim's within-schema lexicographic ordering
fails on this input. -/
theorem C9_grouping_counterexample :
    groupRows [⟨"db1", "t2", none⟩, ⟨"db1", "t1", none⟩]
      = [⟨"db1", [⟨"t2", none⟩, ⟨"t1", none⟩]⟩]
    ∧ tablesSortedByNameLe (groupRows [⟨"db1", "t2", none⟩, ⟨"db1", "t1", none⟩])
        = false := by
  exact ⟨by decide, by decide⟩

/-- C9 (amended): the normalized output groups the raw rows by schema
name; the schemas appear in strictly increasing lexicographic order, and
within each schema the table entries appear in the server-returned row
order (not re-sorted by name), each carrying the row's optional
total_rows as its rowCount. -/
theorem C9_grouping_sorted_schemas_row_order (rows : List ClickHouseTableRow) :
    List.Pairwise (fun a b : SchemaTables => strLt a.schema b.schema = true)
      (groupRows rows)
    ∧ ∀ d, tablesFor (groupRows rows) d
        = (rows.filter (fun r => r.database == d)).map
            (fun r => SchemaTableEntry.mk r.name r.total_rows) := by
  constructor
  · exact (pairwise_groupMap rows).map _ (fun a b h => h)
  · intro d
    rw [groupRows, tablesFor_map_mk, groupMap]
    rw [lookupKey_foldl d rows [] (by simp)]
    rfl

/-- C10: the database field of the connection descriptor is read only by
the schema-listing operation: preview, run-query and status commands
build identical requests (same SQL text and endpoint URL) and, given
identical server responses, return identical results for two descriptors
differing only in the database field. -/
theorem C10_database_field_noninterference
    (c : ClickHouseConnectionInput) (db : Option String) :
    (∀ s t l sc sd parsed,
        fetch_table_preview_pipeline
            ⟨⟨c.host, c.port, c.username, c.password, db, c.secure⟩, s, t, l, sc, sd⟩ parsed
          = fetch_table_preview_pipeline ⟨c, s, t, l, sc, sd⟩ parsed)
    ∧ (∀ s t l sc sd,
        fetch_table_preview_request
            ⟨⟨c.host, c.port, c.username, c.password, db, c.secure⟩, s, t, l, sc, sd⟩
          = fetch_table_preview_request ⟨c, s, t, l, sc, sd⟩)
    ∧ (∀ q l parsed body,
        run_query_pipeline ⟨⟨c.host, c.port, c.username, c.password, db, c.secure⟩, q, l⟩
            parsed body
          = run_query_pipeline ⟨c, q, l⟩ parsed body)
    ∧ (∀ q l,
        run_query_request ⟨⟨c.host, c.port, c.username, c.password, db, c.secure⟩, q, l⟩
          = run_query_request ⟨c, q, l⟩)
    ∧ (∀ rows,
        fetch_connection_status_pipeline ⟨c.host, c.port, c.username, c.password, db, c.secure⟩ rows
          = fetch_connection_status_pipeline c rows)
    ∧ fetch_connection_status_request ⟨c.host, c.port, c.username, c.password, db, c.secure⟩
        = fetch_connection_status_request c :=
  ⟨fun _ _ _ _ _ _ => rfl, fun _ _ _ _ _ => rfl, fun _ _ _ _ => rfl,
   fun _ _ => rfl, fun _ => rfl, rfl⟩

/-- C3: for a run-query call with non-blank normalized text, a LIMIT
clause with the clamped value (range [1,10000], default 500) is appended
exactly when the trimmed, semicolon-stripped text begins
case-insensitively with "SELECT " and its uppercased copy contains no
" LIMIT " substring; independently " FORMAT JSON" is appended exactly
when the uppercased copy contains no "FORMAT " substring; queries
already carrying both clauses are passed through unchanged.  In
particular "select 1" gains " LIMIT 500" and " FORMAT JSON" while
"SELECT 1 LIMIT 10" gains only " FORMAT JSON". -/
theorem C3_run_query_limit_format (q : String) (lim : Option Nat)
    (h : strIsEmpty (normalizeQuery q) = false) :
    run_query_build q lim
      = .ok ((if startsWithStr (strToUpper (normalizeQuery q)) "SELECT "
                  && !containsSub (strToUpper (normalizeQuery q)) " LIMIT "
              then normalizeQuery q ++ " LIMIT "
                    ++ toString (clampNat (lim.getD 500) 1 10000)
              else normalizeQuery q)
             ++ (if containsSub (strToUpper (normalizeQuery q)) "FORMAT "
                 then "" else " FORMAT JSON"))
    ∧ (∀ n : Nat, clampNat n 1 10000 = max 1 (min n 10000))
    ∧ run_query_build "select 1" none = .ok "select 1 LIMIT 500 FORMAT JSON"
    ∧ run_query_build "SELECT 1 LIMIT 10" none = .ok "SELECT 1 LIMIT 10 FORMAT JSON" := by
  refine ⟨?_, ?_, rfl, rfl⟩
  · rw [run_query_build.eq_def]
    simp only [h, Bool.false_eq_true, if_false]
    by_cases hf : containsSub (strToUpper (normalizeQuery q)) "FORMAT " = true
    · simp [hf, String.append_empty]
    · have hf' : containsSub (strToUpper (normalizeQuery q)) "FORMAT " = false := by
        simpa using hf
      simp [hf']
  · intro n
    rw [clampNat]
    split
    · omega
    · split <;> omega

/-- C3 witness: the theorem applied to the concrete lowercase query
"select 1", whose normalized text is non-blank. -/
theorem C3_run_query_limit_format_witness :
    run_query_build "select 1" none = .ok "select 1 LIMIT 500 FORMAT JSON" :=
  (C3_run_query_limit_format "select 1" none (by decide)).2.2.1

/-- C4: when the 2xx body of a run-query call fails to parse as the
structured meta/data shape, the operation still succeeds, returning a
single-column "result" preview whose one row holds the trimmed body
text, or the literal "Query executed successfully" when the body is
blank; body "Ok." yields exactly "Ok.". -/
theorem C4_run_query_nonjson_fallback
    (conn : ClickHouseConnectionInput) (q : String) (l : Option Nat) (body : String)
    (hq : strIsEmpty (normalizeQuery q) = false)
    (hh : strIsEmpty (strTrim conn.host) = false)
    (hu : strIsEmpty (strTrim conn.username) = false) :
    run_query_pipeline ⟨conn, q, l⟩ none body
      = .ok ⟨["result"],
             [JsonValue.obj [("result", JsonValue.str
                (if strIsEmpty (strTrim body) then "Query executed successfully"
                 else strTrim body))]]⟩
    ∧ run_query_fallback "Ok." = ⟨["result"], [JsonValue.obj [("result", JsonValue.str "Ok.")]]⟩
    ∧ run_query_fallback ""
        = ⟨["result"], [JsonValue.obj [("result", JsonValue.str "Query executed successfully")]]⟩ := by
  refine ⟨?_, rfl, rfl⟩
  rw [run_query_pipeline.eq_def, run_query_request.eq_def, run_query_build.eq_def]
  simp only [hq, Bool.false_eq_true, if_false]
  rw [run_clickhouse_query_request.eq_def]
  simp only [hh, hu, Bool.false_eq_true, if_false]
  rfl

/-- C4 witness: a DDL-style call against a valid connection whose 2xx
body is the non-JSON text "Ok." succeeds with the synthetic one-cell
result. -/
theorem C4_run_query_nonjson_fallback_witness :
    run_query_pipeline ⟨⟨"localhost", 8123, "u", "p", none, false⟩, "DROP TABLE t", none⟩
        none "Ok."
      = .ok ⟨["result"], [JsonValue.obj [("result", JsonValue.str "Ok.")]]⟩ :=
  (C4_run_query_nonjson_fallback ⟨"localhost", 8123, "u", "p", none, false⟩
      "DROP TABLE t" none "Ok." (by decide) (by decide) (by decide)).1.trans rfl

/-- C6 counterexample: with a blank host AND a blank schema, the
table-preview command still fails before any network interaction, but
its validation error is "Schema is required", not one of the two
connection messages the claim names: schema/table validation precedes
the connection check. -/
theorem C6_validation_counterexample :
    fetch_table_preview_request
        ⟨⟨"", 8123, "user", "pw", none, false⟩, "", "t", none, none, none⟩
      = .error "Schema is required"
    ∧ "Schema is required" ≠ "Host is required"
    ∧ "Schema is required" ≠ "Username is required" :=
  ⟨rfl, by decide, by decide⟩

/-- C6 (amended): for every connection descriptor whose host or username
is blank after trimming, each of the four commands fails in its request
phase — no request is ever produced, so no HTTP client is built and
nothing is sent; the shared connection check itself reports "Host is
required" (blank host) or "Username is required" (non-blank host, blank
username), while the preview and run-query commands may report their own
blank schema/table/query first. -/
theorem C6_blank_host_or_username_no_network (c : ClickHouseConnectionInput)
    (h : strIsEmpty (strTrim c.host) = true ∨ strIsEmpty (strTrim c.username) = true) :
    (∀ q, run_clickhouse_query_request c q
        = .error (if strIsEmpty (strTrim c.host) then "Host is required"
                  else "Username is required"))
    ∧ (fetch_schema_tables_request c).isOk = false
    ∧ (fetch_connection_status_request c).isOk = false
    ∧ (∀ s t l sc sd, (fetch_table_preview_request ⟨c, s, t, l, sc, sd⟩).isOk = false)
    ∧ (∀ q l, (run_query_request ⟨c, q, l⟩).isOk = false) := by
  have base : ∀ q, run_clickhouse_query_request c q
      = .error (if strIsEmpty (strTrim c.host) then "Host is required"
                else "Username is required") := by
    intro q
    rw [run_clickhouse_query_request.eq_def]
    rcases h with hh | hu
    · simp [hh]
    · by_cases hh : strIsEmpty (strTrim c.host) = true
      · simp [hh]
      · have hh' : strIsEmpty (strTrim c.host) = false := by simpa using hh
        simp [hh', hu]
  refine ⟨base, ?_, ?_, ?_, ?_⟩
  · rw [fetch_schema_tables_request, base]
    rfl
  · rw [fetch_connection_status_request, base]
    rfl
  · intro s t l sc sd
    rw [fetch_table_preview_request.eq_def]
    cases hq : fetch_table_preview_query ⟨c, s, t, l, sc, sd⟩ with
    | error e => rfl
    | ok q =>
      show (run_clickhouse_query_request c q).isOk = false
      rw [base]
      rfl
  · intro q l
    rw [run_query_request.eq_def]
    cases hq : run_query_build q l with
    | error e => rfl
    | ok q' =>
      show (run_clickhouse_query_request c q').isOk = false
      rw [base]
      rfl

/-- C6 witness: the amended theorem applied to a descriptor with a blank
host: the shared connection check reports "Host is required" and the
schema-listing request phase produces no request. -/
theorem C6_blank_host_or_username_no_network_witness :
    run_clickhouse_query_request ⟨"  ", 8123, "user", "pw", none, false⟩ "SELECT 1"
        = .error "Host is required"
    ∧ (fetch_schema_tables_request ⟨"  ", 8123, "user", "pw", none, false⟩).isOk = false := by
  have h := C6_blank_host_or_username_no_network
    ⟨"  ", 8123, "user", "pw", none, false⟩ (Or.inl (by decide))
  exact ⟨(h.1 "SELECT 1").trans rfl, h.2.1⟩

/-- C7: the effective preview limit is the requested limit clamped to
[1,1000] (default 200 when absent): every valid preview query ends with
" LIMIT n FORMAT JSON" for the clamped n, and the concrete request with
sortColumn "id", sortDirection "desc" and limit 5000 produces a query
containing the exact text "ORDER BY `id` DESC LIMIT 1000". -/
theorem C7_preview_limit_clamped (input : TablePreviewInput)
    (hs : strIsEmpty (strTrim input.schema) = false)
    (ht : strIsEmpty (strTrim input.table) = false) :
    (∃ p, fetch_table_preview_query input
        = .ok (p ++ " LIMIT " ++ toString (clampNat (input.limit.getD 200) 1 1000)
                 ++ " FORMAT JSON"))
    ∧ (∀ n : Nat, clampNat n 1 1000 = max 1 (min n 1000))
    ∧ fetch_table_preview_query
        ⟨⟨"h", 1, "u", "p", none, false⟩, "events", "logs", some 5000, some "id", some "desc"⟩
        = .ok "SELECT * FROM `events`.`logs` ORDER BY `id` DESC LIMIT 1000 FORMAT JSON"
    ∧ containsSub "SELECT * FROM `events`.`logs` ORDER BY `id` DESC LIMIT 1000 FORMAT JSON"
        "ORDER BY `id` DESC LIMIT 1000" = true := by
  refine ⟨?_, ?_, rfl, by decide⟩
  · rw [fetch_table_preview_query.eq_def]
    simp only [hs, ht, Bool.false_eq_true, if_false]
    exact ⟨_, rfl⟩
  · intro n
    rw [clampNat]
    split
    · omega
    · split <;> omega

/-- C7 witness: the theorem applied to the concrete preview request of
the claim (limit 5000 clamps to 1000). -/
theorem C7_preview_limit_clamped_witness :
    fetch_table_preview_query
        ⟨⟨"h", 1, "u", "p", none, false⟩, "events", "logs", some 5000, some "id", some "desc"⟩
      = .ok "SELECT * FROM `events`.`logs` ORDER BY `id` DESC LIMIT 1000 FORMAT JSON" :=
  (C7_preview_limit_clamped
      ⟨⟨"h", 1, "u", "p", none, false⟩, "events", "logs", some 5000, some "id", some "desc"⟩
      (by decide) (by decide)).2.2.1

/-- C1 counterexample: with a supplied database the generated
schema-listing SQL orders by name alone — it does not contain the text
"ORDER BY database, name" the claim requires of both cases. -/
theorem C1_schema_listing_counterexample :
    fetch_schema_tables_query ⟨"localhost", 8123, "u", "p", some "analytics", false⟩
      = "SELECT database, name, total_rows FROM system.tables WHERE database = 'analytics' ORDER BY name FORMAT JSON"
    ∧ containsSub
        (fetch_schema_tables_query ⟨"localhost", 8123, "u", "p", some "analytics", false⟩)
        "ORDER BY database, name" = false :=
  ⟨rfl, by decide⟩

/-- C1 (amended): with a supplied non-blank database the schema-listing
SQL filters on database = '<trimmed name, single quotes doubled>',
contains no three-schema exclusion clause, orders by name alone, and
ends with FORMAT JSON; with no database (or a blank one) it is exactly
the default statement, which excludes INFORMATION_SCHEMA,
information_schema and system, orders by database then name, and ends
with FORMAT JSON. -/
theorem C1_schema_listing_query (input : ClickHouseConnectionInput) :
    (∀ d, input.database = some d → strIsEmpty (strTrim d) = false →
        fetch_schema_tables_query input
          = "SELECT database, name, total_rows FROM system.tables WHERE database = '"
              ++ escapeSingleQuotes (strTrim d) ++ "' ORDER BY name FORMAT JSON"
        ∧ endsWithStr (fetch_schema_tables_query input) "FORMAT JSON" = true)
    ∧ ((input.database = none
          ∨ ∃ d, input.database = some d ∧ strIsEmpty (strTrim d) = true) →
        fetch_schema_tables_query input = schemaQueryDefault)
    ∧ containsSub schemaQueryDefault
        "NOT IN ('INFORMATION_SCHEMA', 'information_schema', 'system')" = true
    ∧ endsWithStr schemaQueryDefault "FORMAT JSON" = true
    ∧ fetch_schema_tables_query ⟨"h", 1, "u", "p", some "analytics", false⟩
        = "SELECT database, name, total_rows FROM system.tables WHERE database = 'analytics' ORDER BY name FORMAT JSON"
    ∧ containsSub (fetch_schema_tables_query ⟨"h", 1, "u", "p", some "analytics", false⟩)
        "NOT IN ('INFORMATION_SCHEMA', 'information_schema', 'system')" = false := by
  refine ⟨?_, ?_, by decide, by decide, rfl, by decide⟩
  · intro d hd hblank
    have hq : fetch_schema_tables_query input
        = "SELECT database, name, total_rows FROM system.tables WHERE database = '"
            ++ escapeSingleQuotes (strTrim d) ++ "' ORDER BY name FORMAT JSON" := by
      rw [fetch_schema_tables_query.eq_def, hd]
      simp only [hblank, Bool.false_eq_true, if_false]
    refine ⟨hq, ?_⟩
    rw [hq]
    exact endsWithStr_append _ "' ORDER BY name FORMAT JSON" "FORMAT JSON" (by decide)
  · intro h
    rcases h with hn | ⟨d, hd, hblank⟩
    · rw [fetch_schema_tables_query.eq_def, hn]
    · rw [fetch_schema_tables_query.eq_def, hd]
      simp only [hblank, if_true]

/-- C1 witness: the amended theorem applied to a descriptor with
database "analytics" and to one with no database. -/
theorem C1_schema_listing_query_witness :
    fetch_schema_tables_query ⟨"h", 1, "u", "p", some "analytics", false⟩
      = "SELECT database, name, total_rows FROM system.tables WHERE database = '"
          ++ escapeSingleQuotes (strTrim "analytics") ++ "' ORDER BY name FORMAT JSON"
    ∧ fetch_schema_tables_query ⟨"h", 1, "u", "p", none, false⟩ = schemaQueryDefault := by
  have h1 := C1_schema_listing_query ⟨"h", 1, "u", "p", some "analytics", false⟩
  have h2 := C1_schema_listing_query ⟨"h", 1, "u", "p", none, false⟩
  exact ⟨(h1.1 "analytics" rfl (by decide)).1, h2.2.1 (Or.inl rfl)⟩

/-- C2 counterexample: the direction comparison is NOT case-insensitive:
sortDirection "Desc" yields ASC, and the generated preview query for
sortColumn "id", sortDirection "Desc" contains no DESC. -/
theorem C2_sort_direction_counterexample :
    fetch_table_preview_query
        ⟨⟨"h", 1, "u", "p", none, false⟩, "s", "t", none, some "id", some "Desc"⟩
      = .ok "SELECT * FROM `s`.`t` ORDER BY `id` ASC LIMIT 200 FORMAT JSON"
    ∧ containsSub "SELECT * FROM `s`.`t` ORDER BY `id` ASC LIMIT 200 FORMAT JSON"
        "DESC" = false
    ∧ sortDirectionStr (some "Desc") = "ASC" :=
  ⟨rfl, by decide, rfl⟩

/-- C2 (amended): the ORDER BY direction is DESC exactly when the caller
passes the exact string "desc" or "DESC" (any other value, including
mixed-case forms such as "Desc", and an absent value yield ASC); the
ORDER BY clause is emitted exactly for a non-blank (after trimming)
sort column, on the trimmed escaped column name. -/
theorem C2_sort_direction_exact_match (sd : Option String) :
    (sortDirectionStr sd = "DESC" ↔ sd = some "desc" ∨ sd = some "DESC")
    ∧ (sortDirectionStr sd = "DESC" ∨ sortDirectionStr sd = "ASC")
    ∧ orderClause none sd = ""
    ∧ (∀ c, strIsEmpty (strTrim c) = true → orderClause (some c) sd = "")
    ∧ (∀ c, strIsEmpty (strTrim c) = false →
        orderClause (some c) sd
          = " ORDER BY `" ++ escape_identifier (strTrim c) ++ "` "
              ++ sortDirectionStr sd) := by
  refine ⟨?_, ?_, rfl, ?_, ?_⟩
  · cases sd with
    | none =>
      simp only [sortDirectionStr]
      constructor
      · intro h; exact absurd h (by decide)
      · rintro (h | h) <;> exact absurd h (by simp)
    | some s =>
      simp only [sortDirectionStr]
      by_cases h1 : s = "desc"
      · simp [h1]
      · by_cases h2 : s = "DESC"
        · simp [h2]
        · have hb1 : (s == "desc") = false := by simp [h1]
          have hb2 : (s == "DESC") = false := by simp [h2]
          simp only [hb1, hb2, Bool.or_self, Bool.false_eq_true, if_false]
          constructor
          · intro h; exact absurd h (by decide)
          · rintro (h | h)
            · exact absurd (Option.some.inj h) h1
            · exact absurd (Option.some.inj h) h2
  · cases sd with
    | none => right; rfl
    | some s =>
      by_cases hb : (s == "desc" || s == "DESC") = true
      · left
        simp [sortDirectionStr, hb]
      · right
        have hb' : (s == "desc" || s == "DESC") = false := by simpa using hb
        simp [sortDirectionStr, hb']
  · intro c h
    rw [orderClause]
    simp only [h, if_true]
  · intro c h
    rw [orderClause]
    simp only [h, Bool.false_eq_true, if_false]

/-- C2 witness: a blank sort column yields no ORDER BY clause and the
exact lowercase "desc" yields a DESC clause for column "id". -/
theorem C2_sort_direction_exact_match_witness :
    orderClause (some "  ") (some "desc") = ""
    ∧ orderClause (some "id") (some "desc") = " ORDER BY `id` DESC" := by
  have h := C2_sort_direction_exact_match (some "desc")
  exact ⟨h.2.2.2.1 "  " (by decide), (h.2.2.2.2 "id" (by decide)).trans rfl⟩

end Housecat
